import Mathlib

/-!
Verification of the item-reconciliation and session-lifecycle core of
alexa-todoist-sync.

The definitions below are a shallow embedding of the relevant program
functions:

* the EC2/cloud sync script (sync.js): syncToTodoist,
  getCompletedTodoistTasks, markItemsCompleteOnAlexa, navigateAndLogin;
* the Cloudflare worker (index.ts): the manual-sync endpoint, the scheduled
  cron enqueuer and the queue consumer;
* the Cloudflare sync variant (performSync) that persists refreshed cookies
  after a successful scrape.

Network calls, the DOM and timestamps are abstracted as explicit parameters
(response oracles, a rendered page view, a numeric clock); the control flow
and state updates follow the source line by line.
-/

namespace AlexaTodoistSync

/-- One entry of the persisted sync state, i.e. one value of the
JS object state.syncedItems.  Fields follow the object literal written by
syncToTodoist and mutated by markItemsCompleteOnAlexa:
todoistId (the downstream task id; none models a null/undefined id),
syncedAt (time of last push), completedOnAlexa (the spec's
completedAtSource flag) and completedAt (set when the item is marked done
at the origin; the object literal written on push omits it). -/
structure SyncedItem where
  todoistId : Option String
  syncedAt : Nat
  completedOnAlexa : Bool
  completedAt : Option Nat
  deriving Repr, DecidableEq

/-- The state store state.syncedItems: a JS object mapping an item's text to
its SyncedItem record, embedded as an association list in property order.
JS objects have unique keys; insertion either overwrites in place or
appends. -/
abbrev Store := List (String × SyncedItem)

/-- Property read state.syncedItems[k] (first binding of the key). -/
def find (s : Store) (k : String) : Option SyncedItem :=
  match s with
  | [] => none
  | (k', v) :: rest => if k' = k then some v else find rest k

/-- Property write state.syncedItems[k] = v: overwrite in place if the key
exists, append otherwise (JS object assignment). -/
def insert (s : Store) (k : String) (v : SyncedItem) : Store :=
  match s with
  | [] => [(k, v)]
  | (k', v') :: rest =>
      if k' = k then (k, v) :: rest else (k', v') :: insert rest k v

/-- The key list of a store. -/
def keys (s : Store) : List String := s.map Prod.fst

/-- The filter predicate of syncToTodoist (sync.js lines 673-682): an item
needs a push when it has no entry in the store, or its entry has
completedOnAlexa = true (it was completed and re-added). -/
def needsSync (store : Store) (item : String) : Bool :=
  match find store item with
  | none => true
  | some e => e.completedOnAlexa

/-- The local newItems of syncToTodoist: the scraped items selected for
push, in scrape order.  The filter runs over the store as it is at the
start of the cycle. -/
def newItems (items : List String) (store : Store) : List String :=
  items.filter (fun item => needsSync store item)

/-- The push loop of syncToTodoist (lines 691-733).  The i-th POST of the
cycle to the Todoist task-creation endpoint is modelled by resp i:
some taskId is a 2xx response carrying the created task's id; none covers a
non-ok response and a thrown fetch error, both of which only log and leave
the store unchanged.  On success the entry is overwritten with the new id,
syncedAt = now and completedOnAlexa = false (the object literal has no
completedAt). -/
def pushLoop (resp : Nat → Option String) (now : Nat) :
    Nat → List String → Store → Store
  | _, [], store => store
  | i, item :: rest, store =>
      match resp i with
      | some taskId =>
          pushLoop resp now (i + 1) rest
            (insert store item ⟨some taskId, now, false, none⟩)
      | none => pushLoop resp now (i + 1) rest store

/-- syncToTodoist (sync.js lines 671-737), non-dry-run path: filter the
scraped items against the store, then push each selected item in order. -/
def syncToTodoist (resp : Nat → Option String) (now : Nat)
    (items : List String) (store : Store) : Store :=
  pushLoop resp now 0 (newItems items store) store

/-- One reconcile cycle: the scraped item texts, the cycle's network
responses and its wall-clock time. -/
structure SyncCycle where
  resp : Nat → Option String
  now : Nat
  items : List String

/-- Iterated reconcile cycles (repeated runs of the sync script). -/
def runCycles : List SyncCycle → Store → Store
  | [], store => store
  | c :: rest, store => runCycles rest (syncToTodoist c.resp c.now c.items store)

/-- All push selections made across a sequence of cycles (the concatenation
of each cycle's newItems, taken against the store that cycle starts
from). -/
def pushedInCycles : List SyncCycle → Store → List String
  | [], _ => []
  | c :: rest, store =>
      newItems c.items store ++
        pushedInCycles rest (syncToTodoist c.resp c.now c.items store)

/- ### Basic store lemmas -/

theorem find_insert_self (s : Store) (k : String) (v : SyncedItem) :
    find (insert s k v) k = some v := by
  induction s with
  | nil => simp [insert, find]
  | cons hd tl ih =>
      obtain ⟨k', v'⟩ := hd
      by_cases h : k' = k
      · simp [insert, find, h]
      · simp [insert, find, h, ih]

theorem find_insert_ne (s : Store) (k k' : String) (v : SyncedItem)
    (h : k' ≠ k) : find (insert s k v) k' = find s k' := by
  have hks : k ≠ k' := Ne.symm h
  induction s with
  | nil => simp [insert, find, hks]
  | cons hd tl ih =>
      obtain ⟨k₀, v₀⟩ := hd
      by_cases h0 : k₀ = k
      · subst h0
        simp [insert, find, hks]
      · simp only [insert, if_neg h0, find]
        by_cases h1 : k₀ = k'
        · simp [h1]
        · simp [h1, ih]

theorem pushLoop_find_of_not_mem (resp : Nat → Option String) (now : Nat)
    (toPush : List String) (name : String) (h : name ∉ toPush) :
    ∀ (i : Nat) (store : Store),
      find (pushLoop resp now i toPush store) name = find store name := by
  induction toPush with
  | nil => intro i store; rfl
  | cons item rest ih =>
      intro i store
      have hne : name ≠ item := fun hh => h (hh ▸ List.mem_cons_self item rest)
      have hrest : name ∉ rest := fun hh => h (List.mem_cons_of_mem item hh)
      cases hr : resp i with
      | some tid =>
          simp only [pushLoop, hr]
          rw [ih hrest]
          exact find_insert_ne store item name _ hne
      | none =>
          simp only [pushLoop, hr]
          exact ih hrest (i + 1) store

/- ### Completion poller: getCompletedTodoistTasks (sync.js lines 757-811) -/

/-- Result of the GET to the Todoist task endpoint for one task id:
notFound is a 404 (completed and archived), found carries the summarized
completion flag (isCompleted / completed / is_completed / checked),
httpError is any other non-ok status and netError a thrown fetch error. -/
inductive TaskQuery where
  | notFound
  | found (isCompleted : Bool)
  | httpError
  | netError
  deriving Repr, DecidableEq

/-- The per-entry classification of getCompletedTodoistTasks: skip entries
already completedOnAlexa, skip entries with a null todoistId; otherwise
query the task and classify: 404 means completed, an ok response means
completed exactly when its completion flag is set, any other status and any
thrown error are logged and skipped. -/
def taskCompleted (q : String → TaskQuery) (e : SyncedItem) : Bool :=
  if e.completedOnAlexa then false
  else
    match e.todoistId with
    | none => false
    | some tid =>
        match q tid with
        | .notFound => true
        | .found c => c
        | .httpError => false
        | .netError => false

/-- getCompletedTodoistTasks: iterate the store entries in order and return
the names classified as completed.  The source only reads state; its
embedding therefore returns just the name list and no store. -/
def getCompletedTodoistTasks (q : String → TaskQuery) (store : Store) :
    List String :=
  (store.filter (fun e => taskCompleted q e.2)).map Prod.fst

/-- The task ids actually queried by getCompletedTodoistTasks: one GET per
entry that passes both skip-guards (not completedOnAlexa, non-null
todoistId), independent of the responses. -/
def queriedTasks (store : Store) : List String :=
  store.filterMap (fun e => if e.2.completedOnAlexa then none else e.2.todoistId)

/- ### Source-completion marker: markItemsCompleteOnAlexa (sync.js 814-937) -/

/-- Character-level embedding of the JS String.prototype.toLowerCase used
on item texts. -/
def toLowerStr (s : String) : String := String.mk (s.data.map Char.toLower)

/-- Character-level embedding of the JS String.prototype.trim used on item
texts: strip leading and trailing whitespace. -/
def trimStr (s : String) : String :=
  String.mk
    (((s.data.dropWhile Char.isWhitespace).reverse.dropWhile
        Char.isWhitespace).reverse)

/-- One matching candidate on the rendered shopping-list page: the element
text (dataset.itemName or textContent) together with its resolved checkbox,
if any, and that checkbox's checked state.  hasCheckbox = false covers both
the no-row/no-container and the no-checkbox failure returns. -/
structure Row where
  text : String
  hasCheckbox : Bool
  checked : Bool
  deriving Repr, DecidableEq

/-- The rendered source view, in DOM scan order. -/
abbrev PageView := List Row

/-- Outcome of the in-page search of markItemsCompleteOnAlexa for one
name.  Only clicked corresponds to success: true in the source; the other
three are the success: false returns (error 'No checkbox found...',
error 'Checkbox already checked', and no matching element at all). -/
inductive MarkResult where
  | clicked
  | alreadyChecked
  | noCheckbox
  | notFound
  deriving Repr, DecidableEq

/-- The page.evaluate body (lines 829-913): normalize the target
(toLowerCase then trim), scan elements in order, and on the first element
whose trimmed, lower-cased text equals the target resolve its checkbox:
missing checkbox and already-checked checkbox return failures, otherwise
the checkbox (or its label) is clicked. -/
def findAndClick : PageView → String → MarkResult
  | [], _ => .notFound
  | r :: rest, name =>
      if toLowerStr (trimStr r.text) = trimStr (toLowerStr name) then
        if r.hasCheckbox then
          if r.checked then .alreadyChecked else .clicked
        else .noCheckbox
      else findAndClick rest name

/-- DOM effect of a successful click: the first matching row's checkbox
becomes checked.  Rows where findAndClick would not click are left as they
are. -/
def clickFirstMatch : PageView → String → PageView
  | [], _ => []
  | r :: rest, name =>
      if toLowerStr (trimStr r.text) = trimStr (toLowerStr name) then
        if r.hasCheckbox && !r.checked then
          { r with checked := true } :: rest
        else r :: rest
      else r :: clickFirstMatch rest name

/-- state.syncedItems[itemName].completedOnAlexa = true and
completedAt = now, for an existing entry.  When the key is absent the
source's property write throws a TypeError that the per-item catch logs,
leaving the store unchanged, so the embedding is a no-op there. -/
def setCompleted (s : Store) (k : String) (now : Nat) : Store :=
  match s with
  | [] => []
  | (k', v) :: rest =>
      if k' = k then
        (k', { v with completedOnAlexa := true, completedAt := some now }) :: rest
      else (k', v) :: setCompleted rest k now

/-- The per-item loop of markItemsCompleteOnAlexa: evaluate the search and
click in the live page; only on a successful click mark the store entry,
otherwise log and continue with the next name. -/
def markLoop (now : Nat) : List String → Store → PageView → Store × PageView
  | [], store, page => (store, page)
  | itemName :: rest, store, page =>
      match findAndClick page itemName with
      | .clicked =>
          markLoop now rest (setCompleted store itemName now)
            (clickFirstMatch page itemName)
      | _ => markLoop now rest store page

/-- markItemsCompleteOnAlexa (non-dry-run path): process the target names
in order against one rendered view, returning the updated store and the
page as left by the clicks. -/
def markItemsCompleteOnAlexa (now : Nat) (itemsToComplete : List String)
    (store : Store) (page : PageView) : Store × PageView :=
  markLoop now itemsToComplete store page

/- ### Session lifecycle: navigateAndLogin (sync.js lines 464-628) and the
Cloudflare performSync session refresh (todoist-oauth.ts doc, lines
914-979) -/

/-- The origin's observable behaviour during one navigateAndLogin call:
whether loading the shopping list is redirected to the sign-in flow
(URL contains signin or /ap/), whether the credential flow completes
(selectors found, navigation and any verification succeed), and the
page.cookies() snapshot taken after a successful login. -/
structure OriginPage where
  redirectedToLogin : Bool
  loginFlowSucceeds : Bool
  cookiesAfterLogin : List String
  deriving Repr, DecidableEq

/-- Outcome of navigateAndLogin: with no redirect the saved cookies are
used and nothing is written; a redirect runs the login flow, and only its
success branch calls saveCookies (with the fresh page.cookies()); a failed
flow throws. -/
inductive LoginOutcome where
  | usedSavedSession
  | loggedIn (saved : List String)
  | failed
  deriving Repr, DecidableEq

/-- navigateAndLogin: the only saveCookies call in sync.js is on the
successful-login branch (line 619); the already-logged-in branch only
logs. -/
def navigateAndLogin (o : OriginPage) : LoginOutcome :=
  if o.redirectedToLogin then
    if o.loginFlowSucceeds then .loggedIn o.cookiesAfterLogin else .failed
  else .usedSavedSession

/-- Contents of cookies.json after one navigateAndLogin call, given its
previous contents (none models a missing file). -/
def cookieFileAfter (o : OriginPage) (prev : Option (List String)) :
    Option (List String) :=
  match navigateAndLogin o with
  | .loggedIn c => some c
  | _ => prev

/-- Result of scrapeAmazonShoppingList in the Cloudflare worker variant:
the scraped items and the page.cookies() snapshot taken after the
successful page load. -/
structure ScrapeResult where
  items : List String
  refreshedCookies : List String
  deriving Repr, DecidableEq

/-- Session handling of the worker performSync (todoist-oauth.ts lines
942-974), for a user with an Amazon session configured: a scrape that
throws (e.g. session expired) aborts the sync with the stored cookies
untouched; after a successful scrape the stored session is overwritten
wholesale with the refreshed cookie set whenever it is non-empty. -/
def performSync (scrape : Except String ScrapeResult)
    (storedCookies : List String) : Except String (List String) :=
  match scrape with
  | .error e => .error e
  | .ok r =>
      .ok (if r.refreshedCookies.length > 0 then r.refreshedCookies
           else storedCookies)

/- ### Per-account lock: Cloudflare worker index.ts (manual endpoint 378-432,
scheduled 479-512, queue consumer 515-537) -/

/-- Per-account worker state: whether the sync_in_progress KV record is
present, and how many alexa-to-todoist jobs for this account sit in the
sync queue (in flight included). -/
structure AccountState where
  lockHeld : Bool
  queuedJobs : Nat
  deriving Repr, DecidableEq

/-- HTTP outcome of the manual-sync endpoint: 200 with a job enqueued, or
429 when the lock record exists. -/
inductive ManualSyncResult where
  | started
  | alreadyInProgress
  deriving Repr, DecidableEq

/-- The manual-sync endpoint (for a fully configured, active account):
reject with 429 if sync_in_progress is set; otherwise set it (TTL 120s)
and enqueue the job. -/
def manualSync (s : AccountState) : ManualSyncResult × AccountState :=
  if s.lockHeld then (.alreadyInProgress, s)
  else (.started, { lockHeld := true, queuedJobs := s.queuedJobs + 1 })

/-- The scheduled cron enqueuer, restricted to one account: when the
account is active, fully configured and its interval has elapsed (due), it
enqueues a job.  It never reads or writes the sync_in_progress record. -/
def scheduledEnqueue (due : Bool) (s : AccountState) : AccountState :=
  if due then { s with queuedJobs := s.queuedJobs + 1 } else s

/-- The queue consumer, for one message of this account: run performSync,
ack on success or retry (message stays queued) on error, and in the
finally block delete the sync_in_progress record in either case. -/
def queueConsume (succeeds : Bool) (s : AccountState) : AccountState :=
  if s.queuedJobs = 0 then s
  else
    { lockHeld := false,
      queuedJobs := if succeeds then s.queuedJobs - 1 else s.queuedJobs }

/- ### Reconciliation lemmas -/

theorem needsSync_eq_true_iff (store : Store) (name : String) :
    needsSync store name = true ↔
      (find store name = none ∨
        ∃ e, find store name = some e ∧ e.completedOnAlexa = true) := by
  unfold needsSync
  cases h : find store name <;> simp [h]

theorem syncToTodoist_active_preserved (resp : Nat → Option String) (now : Nat)
    (items : List String) (store : Store) (name : String) (e : SyncedItem)
    (hf : find store name = some e) (hc : e.completedOnAlexa = false) :
    name ∉ newItems items store ∧
      find (syncToTodoist resp now items store) name = some e := by
  have hns : needsSync store name = false := by
    unfold needsSync
    rw [hf]
    exact hc
  have hnm : name ∉ newItems items store := by
    intro hmem
    have h2 := (List.mem_filter.mp hmem).2
    rw [hns] at h2
    exact Bool.noConfusion h2
  refine ⟨hnm, ?_⟩
  unfold syncToTodoist
  rw [pushLoop_find_of_not_mem resp now (newItems items store) name hnm 0 store]
  exact hf

theorem pushLoop_find_of_mem (resp : Nat → Option String) (now : Nat) :
    ∀ (toPush : List String) (k : Nat) (st : Store) (name : String),
      name ∈ toPush → (∀ i, (resp i).isSome = true) →
      ∃ j tid, resp j = some tid ∧
        find (pushLoop resp now k toPush st) name =
          some ⟨some tid, now, false, none⟩ := by
  intro toPush
  induction toPush with
  | nil =>
      intro k st name h _
      exact absurd h (List.not_mem_nil name)
  | cons item rest ih =>
      intro k st name hmem hok
      cases hr : resp k with
      | none =>
          exfalso
          have h1 := hok k
          rw [hr] at h1
          exact Bool.noConfusion h1
      | some tid =>
          by_cases hnr : name ∈ rest
          · have h2 := ih (k + 1)
              (insert st item ⟨some tid, now, false, none⟩) name hnr hok
            simpa [pushLoop, hr] using h2
          · have hni : name = item := by
              rcases List.mem_cons.mp hmem with h | h
              · exact h
              · exact absurd h hnr
            subst hni
            refine ⟨k, tid, hr, ?_⟩
            simp only [pushLoop, hr]
            rw [pushLoop_find_of_not_mem resp now rest name hnr]
            exact find_insert_self st name _

/-- C1: for every store entry for a name with completedOnAlexa = true,
reconciling a scrape that again contains the name selects it for push, and
when the downstream creations succeed the entry ends up overwritten with
the newly returned task id and completedOnAlexa = false, as a brand-new
entry (no completedAt). -/
theorem readd_resets_state (resp : Nat → Option String) (now : Nat)
    (items : List String) (store : Store) (name : String) (e : SyncedItem)
    (hfind : find store name = some e) (hcompleted : e.completedOnAlexa = true)
    (hmem : name ∈ items) (hok : ∀ i, (resp i).isSome = true) :
    name ∈ newItems items store ∧
    ∃ j tid, resp j = some tid ∧
      find (syncToTodoist resp now items store) name =
        some ⟨some tid, now, false, none⟩ := by
  have hns : needsSync store name = true := by
    unfold needsSync
    rw [hfind]
    exact hcompleted
  have hmem' : name ∈ newItems items store := List.mem_filter.mpr ⟨hmem, hns⟩
  exact ⟨hmem',
    pushLoop_find_of_mem resp now (newItems items store) 0 store name hmem' hok⟩

/-- Witness for C1: store has milk completed-at-source; scraping milk again
pushes it and resets the entry to active-synced with the fresh task id. -/
theorem readd_resets_state_witness :
    "milk" ∈ newItems ["milk"] [("milk", ⟨some "t1", 2, true, some 3⟩)] ∧
    ∃ j tid, (fun (_ : Nat) => some "t2") j = some tid ∧
      find (syncToTodoist (fun _ => some "t2") 5 ["milk"]
        [("milk", ⟨some "t1", 2, true, some 3⟩)]) "milk" =
          some ⟨some tid, 5, false, none⟩ :=
  readd_resets_state (fun _ => some "t2") 5 ["milk"]
    [("milk", ⟨some "t1", 2, true, some 3⟩)] "milk"
    ⟨some "t1", 2, true, some 3⟩ (by decide) (by decide) (by decide)
    (fun _ => rfl)

/-- C2: a scraped name is selected for push iff it has no store entry or
its entry has completedOnAlexa = true; an active-synced entry (present,
completedOnAlexa = false) is skipped and is never pushed in any number of
later reconcile cycles, its entry surviving unchanged. -/
theorem push_selection_rule (items : List String) (store : Store)
    (name : String) :
    (name ∈ newItems items store ↔
      name ∈ items ∧
        (find store name = none ∨
          ∃ e, find store name = some e ∧ e.completedOnAlexa = true))
    ∧ ∀ (e : SyncedItem), find store name = some e →
        e.completedOnAlexa = false →
        ∀ (cycles : List SyncCycle),
          name ∉ pushedInCycles cycles store ∧
            find (runCycles cycles store) name = some e := by
  constructor
  · simp only [newItems, List.mem_filter, needsSync_eq_true_iff]
  · intro e hf hc cycles
    induction cycles generalizing store with
    | nil => exact ⟨List.not_mem_nil name, hf⟩
    | cons c rest ih =>
        obtain ⟨hskip, hkeep⟩ :=
          syncToTodoist_active_preserved c.resp c.now c.items store name e hf hc
        obtain ⟨ihm, ihf⟩ := ih (syncToTodoist c.resp c.now c.items store) hkeep
        refine ⟨?_, ihf⟩
        intro hmem
        rcases List.mem_append.mp hmem with h | h
        · exact hskip h
        · exact ihm h

/-- Witness for C2: milk is active-synced, so a scrape containing it twice
over two further cycles never selects it and leaves its entry intact. -/
theorem push_selection_rule_witness :
    ("milk"
        ∈ newItems ["milk", "Eggs"] [("milk", ⟨some "t1", 0, false, none⟩)] ↔
      "milk" ∈ ["milk", "Eggs"] ∧
        (find [("milk", ⟨some "t1", 0, false, none⟩)] "milk" = none ∨
          ∃ e, find [("milk", ⟨some "t1", 0, false, none⟩)] "milk" = some e ∧
            e.completedOnAlexa = true)) ∧
    ("milk" ∉ pushedInCycles
        [⟨fun _ => some "x", 1, ["milk", "Eggs"]⟩, ⟨fun _ => some "y", 2, ["milk"]⟩]
        [("milk", ⟨some "t1", 0, false, none⟩)] ∧
      find (runCycles
        [⟨fun _ => some "x", 1, ["milk", "Eggs"]⟩, ⟨fun _ => some "y", 2, ["milk"]⟩]
        [("milk", ⟨some "t1", 0, false, none⟩)]) "milk" =
          some ⟨some "t1", 0, false, none⟩) :=
  ⟨(push_selection_rule ["milk", "Eggs"]
      [("milk", ⟨some "t1", 0, false, none⟩)] "milk").1,
    (push_selection_rule ["milk", "Eggs"]
      [("milk", ⟨some "t1", 0, false, none⟩)] "milk").2
      ⟨some "t1", 0, false, none⟩ (by decide) (by decide)
      [⟨fun _ => some "x", 1, ["milk", "Eggs"]⟩, ⟨fun _ => some "y", 2, ["milk"]⟩]⟩

/-- C3 counterexample: sync.js performs no normalization before store
lookup.  Reconciling scrape ["Milk", "Eggs"] against an empty store (with
all creations succeeding) leaves no entries keyed "milk" or "eggs" — the
entries are keyed "Milk" and "Eggs" verbatim — refuting the claimed
trim/lower-case keying. -/
theorem normalized_keying_cex :
    find (syncToTodoist (fun _ => some "t") 0 ["Milk", "Eggs"] []) "milk" =
        none ∧
    find (syncToTodoist (fun _ => some "t") 0 ["Milk", "Eggs"] []) "eggs" =
        none ∧
    find (syncToTodoist (fun _ => some "t") 0 ["Milk", "Eggs"] []) "Milk" =
        some ⟨some "t", 0, false, none⟩ ∧
    find (syncToTodoist (fun _ => some "t") 0 ["Milk", "Eggs"] []) "Eggs" =
        some ⟨some "t", 0, false, none⟩ := by
  decide

/-- C3 amended: syncToTodoist keys the store by the scraped text verbatim —
no lower-casing happens at lookup or on the stored key (the scraper trims
the DOM text before it reaches reconcile) — and the verbatim text is also
what is selected for push downstream.  Scrape ["Milk", "Eggs"] against an
empty store yields exactly the two active-synced entries keyed "Milk" and
"Eggs". -/
theorem store_keyed_verbatim (resp : Nat → Option String) (now : Nat)
    (a b : String) (h0 : resp 0 = some a) (h1 : resp 1 = some b) :
    newItems ["Milk", "Eggs"] [] = ["Milk", "Eggs"] ∧
    syncToTodoist resp now ["Milk", "Eggs"] [] =
      [("Milk", ⟨some a, now, false, none⟩),
       ("Eggs", ⟨some b, now, false, none⟩)] := by
  refine ⟨by decide, ?_⟩
  show pushLoop resp now 0 (newItems ["Milk", "Eggs"] []) [] = _
  have hn : newItems ["Milk", "Eggs"] [] = ["Milk", "Eggs"] := by decide
  rw [hn]
  simp [pushLoop, h0, h1, insert]

/-- Witness for C3 amended: concrete successful responses. -/
theorem store_keyed_verbatim_witness :
    newItems ["Milk", "Eggs"] [] = ["Milk", "Eggs"] ∧
    syncToTodoist (fun i => some (if i = 0 then "tA" else "tB")) 4
        ["Milk", "Eggs"] [] =
      [("Milk", ⟨some "tA", 4, false, none⟩),
       ("Eggs", ⟨some "tB", 4, false, none⟩)] :=
  store_keyed_verbatim (fun i => some (if i = 0 then "tA" else "tB")) 4
    "tA" "tB" rfl rfl

/- ### Key-uniqueness lemmas for C4 -/

theorem mem_keys_insert (s : Store) (k m : String) (v : SyncedItem)
    (h : m ∈ keys (insert s k v)) : m ∈ keys s ∨ m = k := by
  induction s with
  | nil =>
      simp [insert, keys] at h
      exact Or.inr h
  | cons hd tl ih =>
      obtain ⟨k₀, v₀⟩ := hd
      by_cases h0 : k₀ = k
      · subst h0
        simp [insert, keys] at h
        rcases h with h | h
        · exact Or.inr h
        · exact Or.inl (by simp [keys, h])
      · simp only [insert, if_neg h0, keys, List.map_cons, List.mem_cons] at h
        rcases h with h | h
        · exact Or.inl (by simp [keys, h])
        · rcases ih h with h2 | h2
          · exact Or.inl (by simp [keys] at h2 ⊢; exact Or.inr h2)
          · exact Or.inr h2

theorem keys_insert_nodup (s : Store) (k : String) (v : SyncedItem)
    (h : (keys s).Nodup) : (keys (insert s k v)).Nodup := by
  induction s with
  | nil => simp [insert, keys]
  | cons hd tl ih =>
      obtain ⟨k₀, v₀⟩ := hd
      simp only [keys, List.map_cons, List.nodup_cons] at h
      by_cases h0 : k₀ = k
      · subst h0
        simpa [insert, keys] using h
      · simp only [insert, if_neg h0, keys, List.map_cons, List.nodup_cons]
        refine ⟨?_, ih h.2⟩
        intro hmem
        rcases mem_keys_insert tl k k₀ v hmem with h2 | h2
        · exact h.1 h2
        · exact h0 h2

theorem pushLoop_keys_nodup (resp : Nat → Option String) (now : Nat) :
    ∀ (toPush : List String) (i : Nat) (st : Store),
      (keys st).Nodup → (keys (pushLoop resp now i toPush st)).Nodup := by
  intro toPush
  induction toPush with
  | nil => intro i st h; exact h
  | cons item rest ih =>
      intro i st h
      cases hr : resp i with
      | some tid =>
          simp only [pushLoop, hr]
          exact ih (i + 1) _ (keys_insert_nodup st item _ h)
      | none =>
          simp only [pushLoop, hr]
          exact ih (i + 1) st h

theorem count_newItems (items : List String) (store : Store) (name : String) :
    List.count name (newItems items store) =
      if needsSync store name = true then List.count name items else 0 := by
  by_cases hp : needsSync store name = true
  · rw [if_pos hp]
    exact List.count_filter (by simpa using hp)
  · rw [if_neg hp]
    refine List.count_eq_zero.mpr ?_
    intro hmem
    exact hp (by simpa using (List.mem_filter.mp hmem).2)

/-- C4 counterexample: a scrape that lists the same (identical) name twice
against an empty store selects it twice — syncToTodoist performs one POST
per selected occurrence, so the cycle pushes the name twice, refuting
"at most one push per unique normalized name per cycle". -/
theorem duplicate_dedup_cex :
    newItems ["milk", "milk"] [] = ["milk", "milk"] ∧
    ¬ List.count "milk" (newItems ["milk", "milk"] []) ≤ 1 := by
  decide

/-- C4 amended: duplicates within one scrape are not de-duplicated: a name
needing sync is selected (and POSTed) once per occurrence, so one cycle can
create several downstream tasks for the same name.  The store itself still
holds at most one entry per exact name: reconcile preserves key
uniqueness. -/
theorem duplicate_handling (resp : Nat → Option String) (now : Nat)
    (items : List String) (store : Store) (name : String)
    (hkeys : (keys store).Nodup) :
    List.count name (newItems items store) =
      (if needsSync store name = true then List.count name items else 0) ∧
    (keys (syncToTodoist resp now items store)).Nodup :=
  ⟨count_newItems items store name,
    pushLoop_keys_nodup resp now (newItems items store) 0 store hkeys⟩

/-- Witness for C4 amended: the duplicated scrape is pushed twice but the
resulting store keeps unique keys. -/
theorem duplicate_handling_witness :
    (List.count "milk" (newItems ["milk", "milk"] []) =
      if needsSync [] "milk" = true then List.count "milk" ["milk", "milk"]
      else 0) ∧
    (keys (syncToTodoist (fun i => some (toString i)) 0 ["milk", "milk"]
      [])).Nodup :=
  duplicate_handling (fun i => some (toString i)) 0 ["milk", "milk"] []
    "milk" (by decide)

/- ### Positional push lemma for C5 -/

theorem pushLoop_find_get (resp : Nat → Option String) (now : Nat) :
    ∀ (toPush : List String) (k : Nat) (st : Store), toPush.Nodup →
      ∀ (i : Nat) (hi : i < toPush.length),
        (resp (k + i) = none →
          find (pushLoop resp now k toPush st) (toPush.get ⟨i, hi⟩) =
            find st (toPush.get ⟨i, hi⟩))
        ∧ (∀ tid, resp (k + i) = some tid →
          find (pushLoop resp now k toPush st) (toPush.get ⟨i, hi⟩) =
            some ⟨some tid, now, false, none⟩) := by
  intro toPush
  induction toPush with
  | nil =>
      intro k st _ i hi
      exact absurd hi (Nat.not_lt_zero i)
  | cons item rest ih =>
      intro k st hnd i hi
      have hnotmem : item ∉ rest := (List.nodup_cons.mp hnd).1
      have hnd' : rest.Nodup := (List.nodup_cons.mp hnd).2
      cases i with
      | zero =>
          simp only [List.get]
          constructor
          · intro hr
            rw [Nat.add_zero] at hr
            simp only [pushLoop, hr]
            exact pushLoop_find_of_not_mem resp now rest item hnotmem (k + 1) st
          · intro tid hr
            rw [Nat.add_zero] at hr
            simp only [pushLoop, hr]
            rw [pushLoop_find_of_not_mem resp now rest item hnotmem (k + 1) _]
            exact find_insert_self st item _
      | succ j =>
          have hj : j < rest.length := Nat.lt_of_succ_lt_succ hi
          have harith : k + (j + 1) = (k + 1) + j := by omega
          have hget : (item :: rest).get ⟨j + 1, hi⟩ = rest.get ⟨j, hj⟩ := rfl
          have hmemj : rest.get ⟨j, hj⟩ ∈ rest := rest.get_mem j hj
          have hnej : rest.get ⟨j, hj⟩ ≠ item := by
            intro hh
            exact hnotmem (hh ▸ hmemj)
          rw [hget, harith]
          cases hr : resp k with
          | some tid =>
              simp only [pushLoop, hr]
              have hrec := ih (k + 1)
                (insert st item ⟨some tid, now, false, none⟩) hnd' j hj
              constructor
              · intro hnone
                rw [hrec.1 hnone]
                exact find_insert_ne st item _ _ hnej
              · exact hrec.2
          | none =>
              simp only [pushLoop, hr]
              exact ih (k + 1) st hnd' j hj

/-- C5: per-item failure isolation of the push loop.  For a cycle whose
selected items are pairwise distinct, the item at position i of the push
list keeps its prior store entry exactly when its POST fails (it will be
re-selected next cycle), and gets its entry overwritten with the returned
id when its POST succeeds — independently of what happens to the other
items of the batch. -/
theorem partial_failure_isolation (resp : Nat → Option String) (now : Nat)
    (items : List String) (store : Store)
    (hnd : (newItems items store).Nodup) (i : Nat)
    (hi : i < (newItems items store).length) :
    (resp i = none →
      find (syncToTodoist resp now items store)
          ((newItems items store).get ⟨i, hi⟩) =
        find store ((newItems items store).get ⟨i, hi⟩))
    ∧ (∀ tid, resp i = some tid →
      find (syncToTodoist resp now items store)
          ((newItems items store).get ⟨i, hi⟩) =
        some ⟨some tid, now, false, none⟩) := by
  have h := pushLoop_find_get resp now (newItems items store) 0 store hnd i hi
  rw [Nat.zero_add] at h
  exact h

/-- Witness for C5: pushing b (position 1) fails while a and c succeed —
a and c end active-synced with their returned ids, b stays absent from the
store. -/
theorem partial_failure_isolation_witness :
    ((fun i => if i = 0 then some "t0" else
        if i = 2 then some "t2" else none) 1 = none →
      find (syncToTodoist (fun i => if i = 0 then some "t0" else
          if i = 2 then some "t2" else none) 3 ["a", "b", "c"] [])
          ((newItems ["a", "b", "c"] []).get ⟨1, by decide⟩) =
        find [] ((newItems ["a", "b", "c"] []).get ⟨1, by decide⟩))
    ∧ (∀ tid, (fun i => if i = 0 then some "t0" else
        if i = 2 then some "t2" else none) 1 = some tid →
      find (syncToTodoist (fun i => if i = 0 then some "t0" else
          if i = 2 then some "t2" else none) 3 ["a", "b", "c"] [])
          ((newItems ["a", "b", "c"] []).get ⟨1, by decide⟩) =
        some ⟨some tid, 3, false, none⟩) :=
  partial_failure_isolation
    (fun i => if i = 0 then some "t0" else if i = 2 then some "t2" else none)
    3 ["a", "b", "c"] [] (by decide) 1 (by decide)

/- ### Poller lemmas for C6 -/

theorem taskCompleted_eq_true_iff (q : String → TaskQuery) (e : SyncedItem) :
    taskCompleted q e = true ↔
      (e.completedOnAlexa = false ∧ ∃ tid, e.todoistId = some tid ∧
        (q tid = .notFound ∨ q tid = .found true)) := by
  obtain ⟨tid, sa, ca, cat⟩ := e
  cases ca
  · cases tid with
    | none => simp [taskCompleted]
    | some t =>
        cases hq : q t with
        | notFound => simp [taskCompleted, hq]
        | found c => cases c <;> simp [taskCompleted, hq]
        | httpError => simp [taskCompleted, hq]
        | netError => simp [taskCompleted, hq]
  · simp [taskCompleted]

/-- C6: the completion poller queries exactly the store entries with
completedOnAlexa = false and a non-null todoistId; a 404 (archived) and an
ok response flagged complete classify the entry's name as completed, while
an active task, an unexpected status and a thrown query error do not.  The
returned list contains exactly the names so classified; the poller writes
nothing (its embedding reads the store and produces only the name
list). -/
theorem pollCompletions_spec (q : String → TaskQuery) (store : Store) :
    (∀ tid, tid ∈ queriedTasks store ↔
      ∃ name e, (name, e) ∈ store ∧ e.completedOnAlexa = false ∧
        e.todoistId = some tid)
    ∧ (∀ name, name ∈ getCompletedTodoistTasks q store ↔
      ∃ e tid, (name, e) ∈ store ∧ e.completedOnAlexa = false ∧
        e.todoistId = some tid ∧
        (q tid = .notFound ∨ q tid = .found true)) := by
  constructor
  · intro tid
    simp only [queriedTasks, List.mem_filterMap]
    constructor
    · rintro ⟨⟨name, e⟩, hmem, hf⟩
      by_cases hca : e.completedOnAlexa = true
      · simp [hca] at hf
      · refine ⟨name, e, hmem, by simpa using hca, ?_⟩
        exact (by simpa using hf : e.completedOnAlexa = false ∧
          e.todoistId = some tid).2
    · rintro ⟨name, e, hmem, hca, hid⟩
      exact ⟨(name, e), hmem, by simp [hca, hid]⟩
  · intro name
    simp only [getCompletedTodoistTasks, List.mem_map, List.mem_filter]
    constructor
    · rintro ⟨⟨name', e⟩, ⟨hmem, hcls⟩, rfl⟩
      obtain ⟨hca, tid, hid, hq⟩ :=
        (taskCompleted_eq_true_iff q e).mp (by simpa using hcls)
      exact ⟨e, tid, hmem, hca, hid, hq⟩
    · rintro ⟨e, tid, hmem, hca, hid, hq⟩
      exact ⟨(name, e),
        ⟨hmem, by
          simpa using (taskCompleted_eq_true_iff q e).mpr ⟨hca, tid, hid, hq⟩⟩,
        rfl⟩

/- ### Marker lemmas for C7 and C8 -/

theorem find_setCompleted_ne (s : Store) (k name : String) (now : Nat)
    (h : name ≠ k) : find (setCompleted s k now) name = find s name := by
  induction s with
  | nil => rfl
  | cons hd tl ih =>
      obtain ⟨k₀, v₀⟩ := hd
      by_cases h0 : k₀ = k
      · subst h0
        have hkn : ¬(k₀ = name) := fun hh => h hh.symm
        simp [setCompleted, find, hkn]
      · simp only [setCompleted, if_neg h0, find]
        by_cases h1 : k₀ = name
        · simp [h1]
        · simp [h1, ih]

theorem find_setCompleted_self (s : Store) (k : String) (now : Nat) :
    find (setCompleted s k now) k =
      (find s k).map
        (fun e => { e with completedOnAlexa := true, completedAt := some now }) := by
  induction s with
  | nil => rfl
  | cons hd tl ih =>
      obtain ⟨k₀, v₀⟩ := hd
      by_cases h0 : k₀ = k
      · simp [setCompleted, find, h0]
      · simp [setCompleted, find, h0, ih]

theorem markLoop_cons_not_clicked (now : Nat) (t : String)
    (rest : List String) (store : Store) (page : PageView)
    (h : findAndClick page t ≠ .clicked) :
    markLoop now (t :: rest) store page = markLoop now rest store page := by
  cases hft : findAndClick page t with
  | clicked => exact absurd hft h
  | alreadyChecked => simp [markLoop, hft]
  | noCheckbox => simp [markLoop, hft]
  | notFound => simp [markLoop, hft]

theorem findAndClick_clickFirstMatch_of_ne_clicked (t name : String) :
    ∀ (page : PageView), findAndClick page name ≠ .clicked →
      findAndClick (clickFirstMatch page t) name ≠ .clicked := by
  intro page
  induction page with
  | nil =>
      intro h
      simpa [clickFirstMatch] using h
  | cons r rest ih =>
      obtain ⟨tx, hb, ck⟩ := r
      intro h
      by_cases h1 : toLowerStr (trimStr tx) = trimStr (toLowerStr t)
      · by_cases h2 : toLowerStr (trimStr tx) = trimStr (toLowerStr name)
        · have h12 : trimStr (toLowerStr t) = trimStr (toLowerStr name) :=
            h1.symm.trans h2
          cases hb with
          | false => simp [clickFirstMatch, findAndClick, h1, h2, h12]
          | true =>
              cases ck with
              | false =>
                  exfalso
                  apply h
                  simp [findAndClick, h2]
              | true => simp [clickFirstMatch, findAndClick, h1, h2, h12]
        · have h12n : ¬(trimStr (toLowerStr t) = trimStr (toLowerStr name)) :=
            fun hh => h2 (h1.trans hh)
          have hrest : findAndClick rest name ≠ .clicked := by
            intro hr
            apply h
            simp [findAndClick, h2, hr]
          cases hb <;> cases ck <;>
            simpa [clickFirstMatch, findAndClick, h1, h2, h12n] using hrest
      · simp only [clickFirstMatch, if_neg h1]
        by_cases h2 : toLowerStr (trimStr tx) = trimStr (toLowerStr name)
        · simp only [findAndClick, if_pos h2] at h ⊢
          exact h
        · simp only [findAndClick, if_neg h2] at h ⊢
          exact ih h

theorem markLoop_find_of_not_clickable (now : Nat) (name : String) :
    ∀ (names : List String) (store : Store) (page : PageView),
      findAndClick page name ≠ .clicked →
      find (markLoop now names store page).1 name = find store name := by
  intro names
  induction names with
  | nil => intro store page _; rfl
  | cons t rest ih =>
      intro store page h
      cases hft : findAndClick page t with
      | clicked =>
          have htn : name ≠ t := by
            intro hh
            rw [hh] at h
            exact h hft
          simp only [markLoop, hft]
          rw [ih _ _ (findAndClick_clickFirstMatch_of_ne_clicked t name page h)]
          exact find_setCompleted_ne store t name now htn
      | alreadyChecked =>
          simp only [markLoop, hft]
          exact ih store page h
      | noCheckbox =>
          simp only [markLoop, hft]
          exact ih store page h
      | notFound =>
          simp only [markLoop, hft]
          exact ih store page h

/-- C7 counterexample: for an item whose matching checkbox is already
checked, the in-page search returns the failure value (success: false with
error 'Checkbox already checked'), not success — so the marker leaves the
store entry unmarked instead of treating the call as a success.  Refutes
"treats the call as success ... yields success both times". -/
theorem idempotent_marking_cex :
    findAndClick [⟨"milk", true, true⟩] "milk" = .alreadyChecked ∧
    MarkResult.alreadyChecked ≠ MarkResult.clicked ∧
    markItemsCompleteOnAlexa 7 ["milk"]
        [("milk", ⟨some "t1", 0, false, none⟩)] [⟨"milk", true, true⟩] =
      ([("milk", ⟨some "t1", 0, false, none⟩)], [⟨"milk", true, true⟩]) := by
  decide

/-- C7 amended: for an item whose matching control is already done, the
marker does not re-trigger the control (no click, no duplicate side
effect), but it reports the call as a failure — 'Checkbox already checked'
— rather than success, and leaves the store entry unmarked; calling the
marker twice in a row for such an item is a complete no-op both times,
failing both times. -/
theorem already_done_marking (now : Nat) (target : String) (store : Store)
    (page : PageView) (h : findAndClick page target = .alreadyChecked) :
    markItemsCompleteOnAlexa now [target] store page = (store, page) ∧
    markItemsCompleteOnAlexa now [target, target] store page = (store, page) := by
  have hne : findAndClick page target ≠ .clicked := by
    rw [h]
    exact fun hc => MarkResult.noConfusion hc
  refine ⟨?_, ?_⟩
  · show markLoop now [target] store page = (store, page)
    rw [markLoop_cons_not_clicked now target [] store page hne]
    rfl
  · show markLoop now [target, target] store page = (store, page)
    rw [markLoop_cons_not_clicked now target [target] store page hne,
      markLoop_cons_not_clicked now target [] store page hne]
    rfl

/-- Witness for C7 amended: a page whose milk row is already checked. -/
theorem already_done_marking_witness :
    markItemsCompleteOnAlexa 7 ["milk"]
        [("milk", ⟨some "t1", 0, false, none⟩)] [⟨"milk", true, true⟩] =
      ([("milk", ⟨some "t1", 0, false, none⟩)], [⟨"milk", true, true⟩]) ∧
    markItemsCompleteOnAlexa 7 ["milk", "milk"]
        [("milk", ⟨some "t1", 0, false, none⟩)] [⟨"milk", true, true⟩] =
      ([("milk", ⟨some "t1", 0, false, none⟩)], [⟨"milk", true, true⟩]) :=
  already_done_marking 7 "milk" [("milk", ⟨some "t1", 0, false, none⟩)]
    [⟨"milk", true, true⟩] (by decide)

/-- C8: a target with no clickable match in the rendered view is skipped
without failing the batch (the embedding is total — the source logs and
continues) and its store entry is untouched through the whole batch, so it
is retried next cycle; conversely an entry is flipped to
completedOnAlexa = true (with completedAt stamped) exactly on a confirmed
successful click for that item. -/
theorem marker_no_match_safe (now : Nat) (store : Store) (page : PageView)
    (name : String) (names : List String) :
    (∀ (t : String) (rest : List String), findAndClick page t ≠ .clicked →
      markItemsCompleteOnAlexa now (t :: rest) store page =
        markItemsCompleteOnAlexa now rest store page)
    ∧ (findAndClick page name ≠ .clicked →
      find (markItemsCompleteOnAlexa now names store page).1 name =
        find store name)
    ∧ (∀ (e : SyncedItem), findAndClick page name = .clicked →
      find store name = some e →
      find (markItemsCompleteOnAlexa now [name] store page).1 name =
        some { e with completedOnAlexa := true, completedAt := some now }) := by
  refine ⟨?_, ?_, ?_⟩
  · intro t rest h
    exact markLoop_cons_not_clicked now t rest store page h
  · intro h
    exact markLoop_find_of_not_clickable now name names store page h
  · intro e hclick hf
    show find (markLoop now [name] store page).1 name = _
    simp only [markLoop, hclick]
    rw [find_setCompleted_self store name now, hf]
    rfl

/-- Witness for C8 (scenario 4): the page has no milk row; the batch for
milk completes without marking the store, leaving the active entry for
retry; and on a page with a clickable milk row the entry is marked. -/
theorem marker_no_match_safe_witness :
    (find (markItemsCompleteOnAlexa 9 ["milk"]
        [("milk", ⟨some "t1", 0, false, none⟩)] [⟨"eggs", true, false⟩]).1
        "milk" =
      find [("milk", ⟨some "t1", 0, false, none⟩)] "milk") ∧
    (find (markItemsCompleteOnAlexa 9 ["milk"]
        [("milk", ⟨some "t1", 0, false, none⟩)] [⟨"Milk ", true, false⟩]).1
        "milk" =
      some ⟨some "t1", 0, true, some 9⟩) :=
  ⟨(marker_no_match_safe 9 [("milk", ⟨some "t1", 0, false, none⟩)]
      [⟨"eggs", true, false⟩] "milk" ["milk"]).2.1 (by decide),
    (marker_no_match_safe 9 [("milk", ⟨some "t1", 0, false, none⟩)]
      [⟨"Milk ", true, false⟩] "milk" ["milk"]).2.2
      ⟨some "t1", 0, false, none⟩ (by decide) (by decide)⟩

/-- C9 counterexample: a cycle of the EC2 script that succeeds on
previously saved cookies (no login redirect, current origin cookies
renewed) does NOT re-persist the renewed cookies — cookies.json keeps its
old contents, refuting "the persisted session artifact is overwritten
after every successful interaction, not only after a fresh login". -/
theorem session_refresh_cex :
    navigateAndLogin ⟨false, true, ["renewed"]⟩ = .usedSavedSession ∧
    cookieFileAfter ⟨false, true, ["renewed"]⟩ (some ["old"]) = some ["old"] ∧
    some ["old"] ≠ some ["renewed"] := by
  decide

/-- C9 amended: in the EC2 script's navigateAndLogin, saveCookies runs only
on the fresh-login branch — a cycle that proceeds on saved cookies leaves
cookies.json untouched; the wholesale overwrite-after-every-successful-
scrape behaviour exists only in the Cloudflare worker's performSync, which
re-encrypts and stores the refreshed cookie set whenever the scrape
succeeds and yields a non-empty set. -/
theorem session_persistence (o : OriginPage) (prev : Option (List String))
    (r : ScrapeResult) (stored : List String) :
    ((∃ c, navigateAndLogin o = .loggedIn c) ↔
      o.redirectedToLogin = true ∧ o.loginFlowSucceeds = true)
    ∧ (o.redirectedToLogin = false →
      navigateAndLogin o = .usedSavedSession ∧ cookieFileAfter o prev = prev)
    ∧ (r.refreshedCookies ≠ [] →
      performSync (.ok r) stored = .ok r.refreshedCookies) := by
  refine ⟨?_, ?_, ?_⟩
  · unfold navigateAndLogin
    by_cases h1 : o.redirectedToLogin = true
    · by_cases h2 : o.loginFlowSucceeds = true
      · simp [h1, h2]
      · simp [h1, h2]
    · simp [h1]
  · intro h1
    have hnav : navigateAndLogin o = .usedSavedSession := by
      unfold navigateAndLogin
      simp [h1]
    exact ⟨hnav, by unfold cookieFileAfter; rw [hnav]⟩
  · intro h
    show Except.ok
        (if r.refreshedCookies.length > 0 then r.refreshedCookies
         else stored) = _
    rw [if_pos (List.length_pos.mpr h)]

/-- Witness for C9 amended: a no-redirect cycle keeps the old cookie file;
the worker sync overwrites the stored session with the fresh set. -/
theorem session_persistence_witness :
    (navigateAndLogin ⟨false, true, ["c1"]⟩ = .usedSavedSession ∧
      cookieFileAfter ⟨false, true, ["c1"]⟩ (some ["old"]) = some ["old"]) ∧
    performSync (.ok ⟨["milk"], ["fresh"]⟩) ["old"] = .ok ["fresh"] :=
  ⟨(session_persistence ⟨false, true, ["c1"]⟩ (some ["old"])
      ⟨["milk"], ["fresh"]⟩ ["old"]).2.1 rfl,
    (session_persistence ⟨false, true, ["c1"]⟩ (some ["old"])
      ⟨["milk"], ["fresh"]⟩ ["old"]).2.2 (by decide)⟩

/-- C10 counterexample: with the sync_in_progress lock held for an
in-flight cycle (one job queued), the scheduled cron path still enqueues a
second sync cycle for the same account — it never consults the lock — so
the lock does not prevent two cycles for one account from being in flight
together. -/
theorem account_lock_cex :
    scheduledEnqueue true ⟨true, 1⟩ = ⟨true, 2⟩ ∧
    queueConsume true ⟨true, 2⟩ = ⟨false, 1⟩ := by
  decide

/-- C10 amended: the sync_in_progress record only guards the manual-sync
endpoint: a second manual request while it is held is rejected with 429 and
changes nothing, a request while it is free sets the lock and enqueues the
job, and the queue consumer clears the lock when the job completes or
fails; the scheduled cron path enqueues jobs without reading or writing the
lock, so overlapping cycles from different trigger paths are not
prevented. -/
theorem account_lock_behaviour (s : AccountState) :
    (s.lockHeld = true → manualSync s = (.alreadyInProgress, s))
    ∧ (s.lockHeld = false →
      manualSync s = (.started, ⟨true, s.queuedJobs + 1⟩))
    ∧ (∀ ok : Bool, 0 < s.queuedJobs → (queueConsume ok s).lockHeld = false)
    ∧ (∀ due : Bool, (scheduledEnqueue due s).lockHeld = s.lockHeld ∧
      (scheduledEnqueue due s).queuedJobs =
        if due then s.queuedJobs + 1 else s.queuedJobs) := by
  refine ⟨?_, ?_, ?_, ?_⟩
  · intro h
    unfold manualSync
    rw [h]
    rfl
  · intro h
    unfold manualSync
    rw [h]
    rfl
  · intro ok h
    unfold queueConsume
    rw [if_neg (Nat.pos_iff_ne_zero.mp h)]
  · intro due
    cases due <;> simp [scheduledEnqueue]

/-- Witness for C10 amended: concrete lock states for each clause. -/
theorem account_lock_behaviour_witness :
    manualSync ⟨true, 1⟩ = (.alreadyInProgress, ⟨true, 1⟩) ∧
    manualSync ⟨false, 0⟩ = (.started, ⟨true, 1⟩) ∧
    (queueConsume false ⟨true, 1⟩).lockHeld = false :=
  ⟨(account_lock_behaviour ⟨true, 1⟩).1 rfl,
    (account_lock_behaviour ⟨false, 0⟩).2.1 rfl,
    (account_lock_behaviour ⟨true, 1⟩).2.2.1 false (by decide)⟩

end AlexaTodoistSync
